import Mathlib

set_option maxHeartbeats 1000000

/-!
Verification of the bobbin thread-resolution engine.

The definitions below are a shallow embedding of the Go packages
`twitter` (GenerateThread, twitter.go) and `twitter/api` (api.go: the
Tweet data model, the Tweets map with its Merge method, and the
GetTweets / GetUserTweets response handling), and of the TypeScript
schedulers `promiseChain` (frontend/src/common.ts) and `promiseRunner`
(frontend/src/promiseChain.tsx) together with the reveal chain of
frontend/src/thread.ts.
-/

/-- Tweet identifier, from the Go type `TweetId int64` in the api package.
No arithmetic is ever performed on ids (they are only compared and
formatted), so they are modelled as integers. -/
abbrev TweetId := Int

/-- User identifier, from the Go type `UserId int64` in the api package. -/
abbrev UserId := Int

/-- Author record, from the Go struct `User` in the api package. -/
structure User where
  id : UserId
  handle : String
  displayName : String
deriving DecidableEq

/-- Tweet record, from the Go struct `Tweet` in the api package: the author,
and the optional reply-parent pointers (nil pointers become `none`). -/
structure Tweet where
  user : User
  parentId : Option TweetId
  parentUserId : Option UserId
deriving DecidableEq

/-- The Go type `Tweets` is `map[TweetId]Tweet`. It is modelled as an
association list whose list order records the insertion order; a Go map
itself is unordered, so theorems may use the list order only to exhibit
in which order the code inserted the entries, never as data the Go program
could observe. Lookup is `Tweets.get`, update is `Tweets.set`. -/
abbrev Tweets := List (TweetId × Tweet)

/-- Map lookup `t[id]`, first entry with the key. -/
def Tweets.get : Tweets → TweetId → Option Tweet
  | [], _ => none
  | (k, v) :: rest, id => if id = k then some v else Tweets.get rest id

/-- Map update `t[id] = tw`: replace the entry in place when the key is
present, append a fresh entry otherwise (a Go map stores one entry per key;
the list position only witnesses insertion order). -/
def Tweets.set : Tweets → TweetId → Tweet → Tweets
  | [], id, tw => [(id, tw)]
  | (k, v) :: rest, id, tw =>
    if k = id then (id, tw) :: rest else (k, v) :: Tweets.set rest id tw

/-- The Go method `Tweets.Merge` (api.go lines 32 to 36): every incoming
entry is written into the receiver with `t[id] = tweet`, so an incoming
entry replaces an existing entry with the same key. -/
def Tweets.Merge (t incoming : Tweets) : Tweets :=
  incoming.foldl (fun acc p => Tweets.set acc p.1 p.2) t

/-- Last entry of a page for a key; `Tweets.Merge` makes the last write win. -/
def pageLast : Tweets → TweetId → Option Tweet
  | [], _ => none
  | (k, v) :: rest, id =>
    match pageLast rest id with
    | some w => some w
    | none => if id = k then some v else none

lemma get_append_single (t : Tweets) (id : TweetId) (tw : Tweet) (k : TweetId) :
    Tweets.get (t ++ [(id, tw)]) k =
      match Tweets.get t k with
      | some v => some v
      | none => if k = id then some tw else none := by
  induction t with
  | nil => simp [Tweets.get]
  | cons p rest ih =>
    obtain ⟨k0, v0⟩ := p
    by_cases hk : k = k0
    · simp [Tweets.get, hk]
    · simp [Tweets.get, hk, ih]

lemma get_set (t : Tweets) (id : TweetId) (tw : Tweet) (k : TweetId) :
    Tweets.get (Tweets.set t id tw) k = if k = id then some tw else Tweets.get t k := by
  induction t with
  | nil => simp [Tweets.set, Tweets.get]
  | cons p rest ih =>
    obtain ⟨k0, v0⟩ := p
    by_cases h0 : k0 = id
    · subst h0
      by_cases hk : k = k0
      · subst hk; simp [Tweets.set, Tweets.get]
      · simp [Tweets.set, Tweets.get, hk]
    · by_cases hk : k = k0
      · subst hk
        simp [Tweets.set, Tweets.get, h0]
      · simp [Tweets.set, Tweets.get, h0, hk, ih]

lemma set_of_get_none (t : Tweets) (id : TweetId) (tw : Tweet)
    (h : Tweets.get t id = none) : Tweets.set t id tw = t ++ [(id, tw)] := by
  induction t with
  | nil => simp [Tweets.set]
  | cons p rest ih =>
    obtain ⟨k0, v0⟩ := p
    rw [Tweets.get] at h
    by_cases hk : id = k0
    · simp [hk] at h
    · have h0 : ¬ k0 = id := fun he => hk he.symm
      rw [if_neg hk] at h
      simp [Tweets.set, h0, ih h]

lemma get_Merge (inc : Tweets) : ∀ (t : Tweets) (k : TweetId),
    Tweets.get (Tweets.Merge t inc) k =
      match pageLast inc k with
      | some w => some w
      | none => Tweets.get t k := by
  induction inc with
  | nil => intro t k; simp [Tweets.Merge, pageLast]
  | cons p rest ih =>
    intro t k
    obtain ⟨k0, v0⟩ := p
    have hstep : Tweets.Merge t ((k0, v0) :: rest) = Tweets.Merge (Tweets.set t k0 v0) rest := by
      simp [Tweets.Merge]
    rw [hstep, ih]
    cases hpl : pageLast rest k with
    | some w => simp [pageLast, hpl]
    | none =>
      by_cases hk : k = k0
      · subst hk; simp [pageLast, hpl, get_set]
      · simp [pageLast, hpl, hk, get_set]

lemma pageLast_mem : ∀ (l : Tweets) (k : TweetId) (v : Tweet),
    pageLast l k = some v → (k, v) ∈ l := by
  intro l
  induction l with
  | nil => intro k v h; simp [pageLast] at h
  | cons p rest ih =>
    intro k v h
    obtain ⟨k0, v0⟩ := p
    rw [pageLast] at h
    cases hpl : pageLast rest k with
    | some w =>
      rw [hpl] at h
      simp at h
      subst h
      exact List.mem_cons_of_mem _ (ih _ _ hpl)
    | none =>
      rw [hpl] at h
      by_cases hk : k = k0
      · subst hk
        simp at h
        subst h
        exact List.mem_cons_self _ _
      · simp [hk] at h

deriving instance DecidableEq for Except

/-- Error raised while generating a thread. The Go code wraps every failure
in a plain `error` value; `api msg` models such a value by its message.
`nilDeref` models the runtime fault the Go code would hit dereferencing
`*tweet.ParentUserId` when `ParentId` is set but `ParentUserId` is nil. -/
inductive GenErr where
  | api (msg : String)
  | nilDeref
deriving DecidableEq

/-- Network operations issued by the resolver, recorded for call counting:
the single-tweet lookup `api.GetTweet` and the timeline page fetch
`api.GetUserTweets`. -/
inductive NetCall where
  | getTweetCall (id : TweetId)
  | getUserTweetsCall (user : UserId) (maxTweet : TweetId)
deriving DecidableEq

/-- Oracle for the remote Twitter API as seen by `GenerateThread`: the
outcome of `api.GetTweet` per tweet id, and of `api.GetUserTweets` per
(user id, max tweet id) pair. Network effects of the Go code become
explicit function results here. -/
structure Env where
  getTweetResp : TweetId → Except String Tweet
  getUserTweetsResp : UserId → TweetId → Except String Tweets

/-- The `getTweet` closure inside `GenerateThread` (twitter.go lines 15 to
42): return a locally cached tweet without network traffic; otherwise fetch
the tweet directly and, when it has a parent, also fetch one timeline page of
the parent author (max id = the requested id) and merge that page into the
local store. A failing timeline fetch fails the whole hop (the source marks
this with a TODO that some errors should be recoverable). The directly
fetched tweet itself is not inserted into the local store (source comment:
no need to store it in localstore). The Go closure reads the loop variable
`currentTweetId` for the direct fetch; at its only call site that variable
equals the `id` argument, which is what is used here. Returns the outcome
together with the list of network calls performed. -/
def getTweet (env : Env) (store : Tweets) (id : TweetId) :
    Except GenErr (Tweet × Tweets) × List NetCall :=
  match Tweets.get store id with
  | some tweet => (Except.ok (tweet, store), [])
  | none =>
    match env.getTweetResp id with
    | Except.error e => (Except.error (GenErr.api e), [NetCall.getTweetCall id])
    | Except.ok tweet =>
      match tweet.parentId with
      | none => (Except.ok (tweet, store), [NetCall.getTweetCall id])
      | some _ =>
        match tweet.parentUserId with
        | none => (Except.error GenErr.nilDeref, [NetCall.getTweetCall id])
        | some parentUser =>
          match env.getUserTweetsResp parentUser id with
          | Except.error e =>
            (Except.error (GenErr.api e),
              [NetCall.getTweetCall id, NetCall.getUserTweetsCall parentUser id])
          | Except.ok page =>
            (Except.ok (tweet, Tweets.Merge store page),
              [NetCall.getTweetCall id, NetCall.getUserTweetsCall parentUser id])

/-- The main loop of `GenerateThread` (twitter.go lines 44 to 58). The Go
loop `for { ... }` is unbounded; it is embedded with a fuel parameter, and
`none` means the loop has not returned within `fuel` iterations. Each
iteration fetches the current tweet, stores it in `result` under its id,
stops successfully when the tweet has no parent, and otherwise continues
from the parent id. There is no maximum-chain-length check in the source. -/
def genLoop (env : Env) :
    Nat → Tweets → Tweets → List NetCall → TweetId →
      Option (Except GenErr Tweets × List NetCall)
  | 0, _, _, _, _ => none
  | fuel + 1, store, result, calls, current =>
    match getTweet env store current with
    | (Except.error e, cs) => some (Except.error e, calls ++ cs)
    | (Except.ok (tweet, store2), cs) =>
      match tweet.parentId with
      | none => some (Except.ok (Tweets.set result current tweet), calls ++ cs)
      | some parent =>
        genLoop env fuel store2 (Tweets.set result current tweet) (calls ++ cs) parent

/-- `GenerateThread` (twitter.go lines 12 to 58): resolve the thread ending
at `tail`, starting from an empty local store and an empty result map.
The second component of a returned pair is the list of network calls made. -/
def GenerateThread (env : Env) (fuel : Nat) (tail : TweetId) :
    Option (Except GenErr Tweets × List NetCall) :=
  genLoop env fuel [] [] [] tail

/-- Go keeps no state between `GenerateThread` calls: `localStore` is a local
variable of each call and the process-wide cache is only a TODO comment, so
two successive resolutions of the same tail are two independent evaluations.
This pairs the observable outcomes of such a first and second resolution. -/
def resolveTwice (env : Env) (fuel : Nat) (tail : TweetId) :
    Option (Except GenErr Tweets × List NetCall) ×
      Option (Except GenErr Tweets × List NetCall) :=
  (GenerateThread env fuel tail, GenerateThread env fuel tail)

/-- Author used by the concrete test environments. -/
def user1 : User := ⟨10, "alice", "Alice"⟩

/-- Root tweet of the concrete two-tweet chain: no parent. -/
def tweet1 : Tweet := ⟨user1, none, none⟩

/-- Tail tweet of the concrete two-tweet chain: replies to tweet 1. -/
def tweet2 : Tweet := ⟨user1, some 1, some 10⟩

/-- A different record under the same id 1, for overwrite experiments. -/
def tweet1v2 : Tweet := ⟨⟨10, "alice2", "Alice"⟩, none, none⟩

/-- Environment for the happy two-tweet chain 2 → 1: both direct lookups
succeed and every timeline page contains the root tweet 1. -/
def chainEnv : Env :=
  ⟨fun id =>
      if id = 2 then Except.ok tweet2
      else if id = 1 then Except.ok tweet1
      else Except.error "tweet not found",
    fun _ _ => Except.ok [(1, tweet1)]⟩

/-- Environment where the direct lookup of tweet 2 succeeds but every
timeline (lookahead) fetch fails. -/
def lookaheadFailEnv : Env :=
  ⟨fun id =>
      if id = 2 then Except.ok tweet2
      else Except.error "tweet not found",
    fun _ _ => Except.error "timeline fetch failed"⟩

/-- Tweet that is its own reply parent: cyclic parent-pointer data. -/
def cycTweet : Tweet := ⟨user1, some 1, some 10⟩

/-- Environment with cyclic data: every direct lookup returns the
self-parent tweet and every timeline page is empty. -/
def cycEnv : Env :=
  ⟨fun _ => Except.ok cycTweet, fun _ _ => Except.ok []⟩

/-- Environment whose direct lookups always return the parentless tweet 1. -/
def rootEnv : Env :=
  ⟨fun _ => Except.ok tweet1, fun _ _ => Except.ok []⟩

/-- Link structure of a reply chain listed in walk order (tail first): each
tweet's parent pointer names the next entry's id, and the last entry (the
thread root) has no parent. -/
def chainLinks : Tweets → Prop
  | [] => True
  | [p] => p.2.parentId = none
  | p :: q :: rest => p.2.parentId = some q.1 ∧ chainLinks (q :: rest)

/-- Every timeline fetch the environment can be asked for succeeds, and the
returned page never contradicts the chain: a page entry carrying the id of a
chain tweet carries that chain tweet (tweets are immutable, so any honest
page satisfies this). -/
def lookaheadOK (env : Env) (chain : Tweets) : Prop :=
  ∀ u mid, ∃ page, env.getUserTweetsResp u mid = Except.ok page ∧
    ∀ p ∈ chain, ∀ q ∈ page, q.1 = p.1 → q.2 = p.2

lemma getTweet_cached (env : Env) (store : Tweets) (id : TweetId) (tw : Tweet)
    (h : Tweets.get store id = some tw) :
    getTweet env store id = (Except.ok (tw, store), []) := by
  simp [getTweet, h]

lemma getTweet_root (env : Env) (store : Tweets) (id : TweetId) (tw : Tweet)
    (hmiss : Tweets.get store id = none)
    (hresp : env.getTweetResp id = Except.ok tw)
    (hnp : tw.parentId = none) :
    getTweet env store id = (Except.ok (tw, store), [NetCall.getTweetCall id]) := by
  simp [getTweet, hmiss, hresp, hnp]

lemma getTweet_fetch_parent (env : Env) (store : Tweets) (id : TweetId)
    (tw : Tweet) (pid : TweetId) (u : UserId) (page : Tweets)
    (hmiss : Tweets.get store id = none)
    (hresp : env.getTweetResp id = Except.ok tw)
    (hp : tw.parentId = some pid)
    (hu : tw.parentUserId = some u)
    (hpage : env.getUserTweetsResp u id = Except.ok page) :
    getTweet env store id =
      (Except.ok (tw, Tweets.Merge store page),
        [NetCall.getTweetCall id, NetCall.getUserTweetsCall u id]) := by
  simp [getTweet, hmiss, hresp, hp, hu, hpage]

lemma merge_agrees (chain : Tweets) (store page : Tweets)
    (hstore : ∀ p ∈ chain, ∀ w, Tweets.get store p.1 = some w → w = p.2)
    (hpage : ∀ p ∈ chain, ∀ q ∈ page, q.1 = p.1 → q.2 = p.2) :
    ∀ p ∈ chain, ∀ w, Tweets.get (Tweets.Merge store page) p.1 = some w → w = p.2 := by
  intro p hp w hw
  rw [get_Merge] at hw
  cases hpl : pageLast page p.1 with
  | some v =>
    rw [hpl] at hw
    injection hw with hvw
    rw [← hvw]
    exact hpage p hp (p.1, v) (pageLast_mem _ _ _ hpl) rfl
  | none =>
    rw [hpl] at hw
    exact hstore p hp w hw

/-- Main correctness lemma for the backward walk: if the remaining chain
(tail first) is well linked, has distinct ids, its direct lookups succeed,
its parent-user fields are present alongside parent ids, every timeline
fetch succeeds consistently with the chain, the local store never
contradicts the chain, and the result map does not yet contain any chain
id, then the loop succeeds with at least `length` fuel and appends exactly
the chain, in walk order, to the result map. -/
lemma genLoop_chain (env : Env) :
    ∀ (rest : Tweets) (tid : TweetId) (ttw : Tweet) (fuel : Nat)
      (store result : Tweets) (calls : List NetCall),
      chainLinks ((tid, ttw) :: rest) →
      (((tid, ttw) :: rest).map Prod.fst).Nodup →
      (∀ p ∈ (tid, ttw) :: rest, env.getTweetResp p.1 = Except.ok p.2) →
      (∀ p ∈ (tid, ttw) :: rest, p.2.parentId.isSome → p.2.parentUserId.isSome) →
      lookaheadOK env ((tid, ttw) :: rest) →
      (∀ p ∈ (tid, ttw) :: rest, ∀ w, Tweets.get store p.1 = some w → w = p.2) →
      (∀ p ∈ (tid, ttw) :: rest, Tweets.get result p.1 = none) →
      rest.length + 1 ≤ fuel →
      ∃ cs, genLoop env fuel store result calls tid =
        some (Except.ok (result ++ (tid, ttw) :: rest), cs) := by
  intro rest
  induction rest with
  | nil =>
    intro tid ttw fuel store result calls hlinks _hnodup hresp _hpu _hla hstore hres hfuel
    have hroot : ttw.parentId = none := hlinks
    cases fuel with
    | zero => omega
    | succ f =>
      have hset : Tweets.set result tid ttw = result ++ [(tid, ttw)] :=
        set_of_get_none _ _ _ (hres (tid, ttw) (List.mem_singleton.mpr rfl))
      cases hst : Tweets.get store tid with
      | some w =>
        have hw : w = ttw := hstore (tid, ttw) (List.mem_singleton.mpr rfl) w hst
        refine ⟨calls, ?_⟩
        rw [genLoop, getTweet_cached env store tid w hst, hw]
        simp [hroot, hset]
      | none =>
        refine ⟨calls ++ [NetCall.getTweetCall tid], ?_⟩
        rw [genLoop,
          getTweet_root env store tid ttw hst
            (hresp (tid, ttw) (List.mem_singleton.mpr rfl)) hroot]
        simp [hroot, hset]
  | cons np nrest ih =>
    intro tid ttw fuel store result calls hlinks hnodup hresp hpu hla hstore hres hfuel
    obtain ⟨nid, ntw⟩ := np
    have hlink : ttw.parentId = some nid := hlinks.1
    have hlinks2 : chainLinks ((nid, ntw) :: nrest) := hlinks.2
    have hmemtail : ∀ p ∈ (nid, ntw) :: nrest, p ∈ (tid, ttw) :: (nid, ntw) :: nrest :=
      fun p hp => List.mem_cons_of_mem _ hp
    have hheadmem : (tid, ttw) ∈ (tid, ttw) :: (nid, ntw) :: nrest :=
      List.mem_cons_self _ _
    rw [List.map_cons, List.nodup_cons] at hnodup
    have htidnot : tid ∉ ((nid, ntw) :: nrest).map Prod.fst := hnodup.1
    have hnodup2 : (((nid, ntw) :: nrest).map Prod.fst).Nodup := hnodup.2
    cases fuel with
    | zero => simp at hfuel
    | succ f =>
      have hresult : Tweets.get result tid = none := hres (tid, ttw) hheadmem
      have hset : Tweets.set result tid ttw = result ++ [(tid, ttw)] :=
        set_of_get_none _ _ _ hresult
      have hres2 : ∀ p ∈ (nid, ntw) :: nrest,
          Tweets.get (result ++ [(tid, ttw)]) p.1 = none := by
        intro p hp
        rw [get_append_single, hres p (hmemtail p hp)]
        have : p.1 ≠ tid := by
          intro he
          exact htidnot (he ▸ List.mem_map_of_mem Prod.fst hp)
        simp [this]
      have hfuel2 : nrest.length + 1 ≤ f := by
        simp at hfuel
        omega
      cases hst : Tweets.get store tid with
      | some w =>
        have hw : w = ttw := hstore (tid, ttw) hheadmem w hst
        have hstore2 : ∀ p ∈ (nid, ntw) :: nrest,
            ∀ v, Tweets.get store p.1 = some v → v = p.2 :=
          fun p hp v hv => hstore p (hmemtail p hp) v hv
        obtain ⟨cs, hrec⟩ := ih nid ntw f store (result ++ [(tid, ttw)]) calls
          hlinks2 hnodup2
          (fun p hp => hresp p (hmemtail p hp))
          (fun p hp => hpu p (hmemtail p hp))
          (fun u mid => by
            obtain ⟨page, hpg, hag⟩ := hla u mid
            exact ⟨page, hpg, fun p hp => hag p (hmemtail p hp)⟩)
          hstore2 hres2 hfuel2
        refine ⟨cs, ?_⟩
        rw [genLoop, getTweet_cached env store tid w hst, hw]
        simp only [hlink, hset, List.append_nil]
        rw [hrec]
        simp
      | none =>
        have hpuid : ttw.parentUserId.isSome := by
          apply hpu (tid, ttw) hheadmem
          simp [hlink]
        obtain ⟨u, hu⟩ := Option.isSome_iff_exists.mp hpuid
        obtain ⟨page, hpg, hag⟩ := hla u tid
        have hstore2 : ∀ p ∈ (nid, ntw) :: nrest,
            ∀ v, Tweets.get (Tweets.Merge store page) p.1 = some v → v = p.2 := by
          have := merge_agrees ((tid, ttw) :: (nid, ntw) :: nrest) store page hstore hag
          exact fun p hp v hv => this p (hmemtail p hp) v hv
        obtain ⟨cs, hrec⟩ := ih nid ntw f (Tweets.Merge store page)
          (result ++ [(tid, ttw)])
          (calls ++ [NetCall.getTweetCall tid, NetCall.getUserTweetsCall u tid])
          hlinks2 hnodup2
          (fun p hp => hresp p (hmemtail p hp))
          (fun p hp => hpu p (hmemtail p hp))
          (fun u2 mid => by
            obtain ⟨page2, hpg2, hag2⟩ := hla u2 mid
            exact ⟨page2, hpg2, fun p hp => hag2 p (hmemtail p hp)⟩)
          hstore2 hres2 hfuel2
        refine ⟨cs, ?_⟩
        rw [genLoop,
          getTweet_fetch_parent env store tid ttw nid u page hst
            (hresp (tid, ttw) hheadmem) hlink hu hpg]
        simp only [hlink, hset]
        rw [hrec]
        simp

/-- On the cyclic environment the walk revisits tweet 1 forever: every
iteration re-fetches it (the empty lookahead page leaves the store empty),
stores it in the result under the same key, and continues with parent 1,
so the loop never returns, whatever fuel it is given. -/
lemma cycEnv_genLoop_none : ∀ (fuel : Nat) (result : Tweets) (calls : List NetCall),
    genLoop cycEnv fuel [] result calls 1 = none := by
  intro fuel
  induction fuel with
  | zero => intro result calls; rfl
  | succ f ih =>
    intro result calls
    rw [genLoop, getTweet_fetch_parent cycEnv [] 1 cycTweet 1 10 [] rfl rfl rfl rfl rfl]
    show genLoop cycEnv f [] (Tweets.set result 1 cycTweet)
      (calls ++ [NetCall.getTweetCall 1, NetCall.getUserTweetsCall 10 1]) 1 = none
    exact ih _ _

/-- C1 (amended): for every acyclic reply chain reachable from the tail
(listed here tail first as `(tid, ttw) :: rest`, with distinct ids, each
parent pointer naming the next entry, the last entry parentless, direct
lookups answering the chain's tweets, parent-author ids present, and every
timeline fetch succeeding consistently with the chain), `GenerateThread`
succeeds and returns exactly the N tweets of the chain as a map keyed by
tweet id. The map is built in tail-to-root insertion order, the reverse of
the root-to-tail order the claim states, and a Go map carries no order at
all; each inserted tweet's parentTweetId equals the id of the NEXT inserted
entry rather than the previous one. -/
theorem generateThread_resolves_chain (env : Env) (tid : TweetId) (ttw : Tweet)
    (rest : Tweets) (fuel : Nat)
    (hlinks : chainLinks ((tid, ttw) :: rest))
    (hnodup : (((tid, ttw) :: rest).map Prod.fst).Nodup)
    (hresp : ∀ p ∈ (tid, ttw) :: rest, env.getTweetResp p.1 = Except.ok p.2)
    (hpu : ∀ p ∈ (tid, ttw) :: rest, p.2.parentId.isSome → p.2.parentUserId.isSome)
    (hla : lookaheadOK env ((tid, ttw) :: rest))
    (hfuel : rest.length + 1 ≤ fuel) :
    ∃ cs, GenerateThread env fuel tid = some (Except.ok ((tid, ttw) :: rest), cs) := by
  obtain ⟨cs, h⟩ := genLoop_chain env rest tid ttw fuel [] [] []
    hlinks hnodup hresp hpu hla
    (by intro p hp w hw; simp [Tweets.get] at hw)
    (by intro p hp; rfl) hfuel
  exact ⟨cs, by simpa [GenerateThread] using h⟩

/-- Witness for `generateThread_resolves_chain` at the concrete two-tweet
chain 2 → 1 over `chainEnv`. -/
theorem generateThread_resolves_chain_witness :
    ∃ cs, GenerateThread chainEnv 2 2 =
      some (Except.ok [(2, tweet2), (1, tweet1)], cs) :=
  generateThread_resolves_chain chainEnv 2 tweet2 [(1, tweet1)] 2
    ⟨rfl, rfl⟩ (by decide)
    (by intro p hp; fin_cases hp <;> decide)
    (by intro p hp; fin_cases hp <;> decide)
    (fun u mid => ⟨[(1, tweet1)], rfl, by decide⟩)
    (by decide)

/-- C1 counterexample: on the concrete chain 2 → 1 the resolver succeeds,
but the returned map is built in insertion order tail first, [(2, _), (1, _)],
not in the root-to-tail order [(1, _), (2, _)] the claim states (and a Go
map exposes no order at all), so the "ordered root-to-tail" part of the
claim is false of the code. -/
theorem generateThread_not_root_to_tail :
    ∃ res cs, GenerateThread chainEnv 2 2 = some (Except.ok res, cs) ∧
      res = [(2, tweet2), (1, tweet1)] ∧ res ≠ [(1, tweet1), (2, tweet2)] :=
  ⟨[(2, tweet2), (1, tweet1)],
    [NetCall.getTweetCall 2, NetCall.getUserTweetsCall 10 2],
    by decide, rfl, by decide⟩

/-- C2 (amended): `GenerateThread` has no maximum-chain-length guard and no
ThreadTooLong error: the loop at twitter.go lines 47 to 57 is `for { ... }`
with no counter. On cyclic parent-pointer data it never terminates: for
every fuel bound the fuel-indexed embedding of the loop is exhausted
without returning. -/
theorem generateThread_cycle_diverges :
    ∀ fuel : Nat, GenerateThread cycEnv fuel 1 = none :=
  fun fuel => cycEnv_genLoop_none fuel [] []

/-- C2 counterexample: for the concrete cyclic input (tweet 1 is its own
parent) the walk neither stops after a configured number of hops nor
produces any ThreadTooLong-style error: it never returns at all, so the
claimed bounded-failure behaviour is false of the code. -/
theorem generateThread_no_length_bound :
    ¬ ∃ fuel out, GenerateThread cycEnv fuel 1 = some out := by
  rintro ⟨fuel, out, h⟩
  rw [GenerateThread, cycEnv_genLoop_none fuel [] []] at h
  exact Option.noConfusion h

/-- C3: contrary to the claim, a lookahead (timeline) failure is fatal: on
`lookaheadFailEnv` the direct lookup of tweet 2 succeeds, the lookahead
fetch fails, and `GenerateThread` returns that lookahead error as the
resolution's error instead of proceeding with the directly fetched tweet
(twitter.go line 33, with the TODO at line 32 noting some of these errors
should be recoverable). -/
theorem generateThread_lookahead_failure_fatal :
    GenerateThread lookaheadFailEnv 5 2 =
      some (Except.error (GenErr.api "timeline fetch failed"),
        [NetCall.getTweetCall 2, NetCall.getUserTweetsCall 10 2]) := by decide

/-- C4: contrary to the claim, no cache state survives a resolution:
`localStore` is created afresh inside every `GenerateThread` call
(twitter.go line 13; the process-wide cache is only the TODO at line 20),
so the second resolution of tail 2 repeats the identical network calls —
including the direct fetch of tweet 2, which the first resolution already
performed — rather than issuing zero calls for already-cached tweets. -/
theorem generateThread_no_cross_request_cache :
    resolveTwice chainEnv 2 2 =
      (some (Except.ok [(2, tweet2), (1, tweet1)],
          [NetCall.getTweetCall 2, NetCall.getUserTweetsCall 10 2]),
        some (Except.ok [(2, tweet2), (1, tweet1)],
          [NetCall.getTweetCall 2, NetCall.getUserTweetsCall 10 2])) ∧
      NetCall.getTweetCall 2 ∈
        [NetCall.getTweetCall 2, NetCall.getUserTweetsCall 10 2] :=
  ⟨rfl, by decide⟩

/-- C5 (amended): `Tweets.Merge` is last-writer-wins, not
never-overwrite: an incoming entry replaces an existing entry with the same
key. Merging in either order gives extensionally equal caches exactly when
the two pages agree on shared ids (as pages drawn from one immutable tweet
universe do), and merging the same page twice equals merging it once. -/
theorem merge_agreeing_pages_commute (c p1 p2 : Tweets)
    (hagree : ∀ q ∈ p1, ∀ r ∈ p2, q.1 = r.1 → q.2 = r.2) :
    (∀ k, Tweets.get (Tweets.Merge (Tweets.Merge c p1) p2) k =
      Tweets.get (Tweets.Merge (Tweets.Merge c p2) p1) k) ∧
    (∀ k, Tweets.get (Tweets.Merge (Tweets.Merge c p1) p1) k =
      Tweets.get (Tweets.Merge c p1) k) := by
  constructor
  · intro k
    rw [get_Merge p2 (Tweets.Merge c p1) k, get_Merge p1 c k,
      get_Merge p1 (Tweets.Merge c p2) k, get_Merge p2 c k]
    cases h1 : pageLast p1 k with
    | some v1 =>
      cases h2 : pageLast p2 k with
      | some v2 =>
        have hv : v1 = v2 :=
          hagree (k, v1) (pageLast_mem _ _ _ h1) (k, v2) (pageLast_mem _ _ _ h2) rfl
        simp [hv]
      | none => simp
    | none => cases h2 : pageLast p2 k <;> simp
  · intro k
    rw [get_Merge p1 (Tweets.Merge c p1) k, get_Merge p1 c k]
    cases h1 : pageLast p1 k <;> simp

/-- Witness for `merge_agreeing_pages_commute` on two concrete disjoint
pages. -/
theorem merge_agreeing_pages_commute_witness :
    Tweets.get (Tweets.Merge (Tweets.Merge [] [(1, tweet1)]) [(2, tweet2)]) 1 =
      Tweets.get (Tweets.Merge (Tweets.Merge [] [(2, tweet2)]) [(1, tweet1)]) 1 :=
  (merge_agreeing_pages_commute [] [(1, tweet1)] [(2, tweet2)] (by decide)).1 1

/-- C5 counterexample: a tweet already present is overwritten by `Merge`
(api.go line 34 writes unconditionally), and merging two pages that
disagree on a shared key in the two orders yields different cache states,
so the never-overwrite and unconditional order-independence claims are
false of the code. -/
theorem merge_overwrites_existing :
    Tweets.get (Tweets.Merge [(1, tweet1)] [(1, tweet1v2)]) 1 = some tweet1v2 ∧
    tweet1v2 ≠ tweet1 ∧
    Tweets.get (Tweets.Merge (Tweets.Merge [] [(1, tweet1)]) [(1, tweet1v2)]) 1 ≠
      Tweets.get (Tweets.Merge (Tweets.Merge [] [(1, tweet1v2)]) [(1, tweet1)]) 1 := by
  decide

/-- C6 (amended): the cache-aware fetch deliberately does not insert the
directly fetched tweet into the local store (twitter.go line 29: no need to
store this in localstore, we should globally cache it): on a cache miss for
a parentless tweet the fetch succeeds and returns the store unchanged, so
the requested id is still absent from the cache afterwards. An id ends up
cached only when a merged lookahead page happens to contain it. -/
theorem getTweet_direct_not_inserted (env : Env) (store : Tweets) (id : TweetId)
    (tw : Tweet)
    (hmiss : Tweets.get store id = none)
    (hresp : env.getTweetResp id = Except.ok tw)
    (hnp : tw.parentId = none) :
    getTweet env store id = (Except.ok (tw, store), [NetCall.getTweetCall id]) ∧
      Tweets.get store id = none :=
  ⟨getTweet_root env store id tw hmiss hresp hnp, hmiss⟩

/-- Witness for `getTweet_direct_not_inserted` on the empty store. -/
theorem getTweet_direct_not_inserted_witness :
    getTweet rootEnv [] 1 = (Except.ok (tweet1, []), [NetCall.getTweetCall 1]) ∧
      Tweets.get [] 1 = none :=
  getTweet_direct_not_inserted rootEnv [] 1 tweet1 rfl rfl rfl

/-- C6 counterexample: a successful cache-aware fetch of tweet 2 (parent
present, lookahead succeeded and merged the page [(1, _)]) leaves the
requested id 2 absent from the resulting store, so the claim that the
originally requested tweet is always inserted into the cache is false of
the code. -/
theorem getTweet_success_id_absent :
    getTweet chainEnv [] 2 =
      (Except.ok (tweet2, [(1, tweet1)]),
        [NetCall.getTweetCall 2, NetCall.getUserTweetsCall 10 2]) ∧
      Tweets.get [(1, tweet1)] 2 = none := by decide

/-- One scheduler event: a caller submits a task (`schedule`) or a running
task settles (`complete`). JavaScript is single threaded, so a scheduler
run is a sequence of such events applied in order. Tasks carry numeric ids
so start order and FIFO order are observable. -/
inductive SchedEvent where
  | schedule (id : Nat)
  | complete (id : Nat)
deriving DecidableEq

/-- Scheduler state shared by both TypeScript implementations:
`runningTasks` is the mutable counter of the source, `queue` the waiting
list (`queue` in common.ts, `waitingTasks` in promiseChain.tsx, FIFO with
`shift()` taking the head), `active` the ids of tasks that have started and
not yet settled, and `started` the instrumentation trace of start events. -/
structure SchedState where
  runningTasks : Nat
  queue : List Nat
  active : List Nat
  started : List Nat
deriving DecidableEq

/-- Step function of `promiseChain` (frontend/src/common.ts lines 88 to
115). Schedule: if `runningTasks < maxConcurrent` the task starts at once
(counter incremented), else it is pushed. Complete: the settled task leaves
`active`; then `taskComplete` runs — if the queue is non-empty and
`runningTasks <= maxConcurrent`, the head task is shifted and started with
the counter unchanged, otherwise the counter is decremented. A completion
event for a task that is not running is ignored. -/
def promiseChainStep (maxConcurrent : Nat) (s : SchedState) : SchedEvent → SchedState
  | SchedEvent.schedule id =>
    if s.runningTasks < maxConcurrent then
      ⟨s.runningTasks + 1, s.queue, s.active ++ [id], s.started ++ [id]⟩
    else
      ⟨s.runningTasks, s.queue ++ [id], s.active, s.started⟩
  | SchedEvent.complete id =>
    if id ∈ s.active then
      match s.queue with
      | [] => ⟨s.runningTasks - 1, [], s.active.erase id, s.started⟩
      | q :: rest =>
        if s.runningTasks ≤ maxConcurrent then
          ⟨s.runningTasks, rest, s.active.erase id ++ [q], s.started ++ [q]⟩
        else
          ⟨s.runningTasks - 1, q :: rest, s.active.erase id, s.started⟩
    else s

/-- Step function of `promiseRunner` (frontend/src/promiseChain.tsx lines
10 to 46). Schedule: if `runningTasks >= maxConcurrent` the task is pushed,
else it starts at once. Complete: the settled task leaves `active`; then
`taskComplete` runs — if `runningTasks <= maxConcurrent` it shifts the
queue and starts the head if there is one, and — unlike promiseChain —
decrements nothing when the queue is empty; the decrement branch requires
`runningTasks > maxConcurrent`. -/
def promiseRunnerStep (maxConcurrent : Nat) (s : SchedState) : SchedEvent → SchedState
  | SchedEvent.schedule id =>
    if maxConcurrent ≤ s.runningTasks then
      ⟨s.runningTasks, s.queue ++ [id], s.active, s.started⟩
    else
      ⟨s.runningTasks + 1, s.queue, s.active ++ [id], s.started ++ [id]⟩
  | SchedEvent.complete id =>
    if id ∈ s.active then
      if s.runningTasks ≤ maxConcurrent then
        match s.queue with
        | [] => ⟨s.runningTasks, [], s.active.erase id, s.started⟩
        | q :: rest => ⟨s.runningTasks, rest, s.active.erase id ++ [q], s.started ++ [q]⟩
      else
        ⟨s.runningTasks - 1, s.queue, s.active.erase id, s.started⟩
    else s

/-- Run a fresh `promiseChain(maxConcurrent)` instance over an event trace;
the initial state has counter 0 and empty queues. -/
def runPromiseChain (maxConcurrent : Nat) (evs : List SchedEvent) : SchedState :=
  evs.foldl (promiseChainStep maxConcurrent) ⟨0, [], [], []⟩

/-- Run a fresh `promiseRunner(maxConcurrent)` instance over an event trace. -/
def runPromiseRunner (maxConcurrent : Nat) (evs : List SchedEvent) : SchedState :=
  evs.foldl (promiseRunnerStep maxConcurrent) ⟨0, [], [], []⟩

lemma foldl_pres {α β : Type} (P : α → Prop) (f : α → β → α)
    (hstep : ∀ s e, P s → P (f s e)) :
    ∀ (l : List β) (s : α), P s → P (l.foldl f s) := by
  intro l
  induction l with
  | nil => intro s hs; simpa using hs
  | cons e rest ih =>
    intro s hs
    simpa using ih (f s e) (hstep s e hs)

/-- Invariant of promiseChain: the counter equals the number of running
tasks and never exceeds the bound. -/
def chainInv (maxConcurrent : Nat) (s : SchedState) : Prop :=
  s.active.length = s.runningTasks ∧ s.runningTasks ≤ maxConcurrent

/-- Invariant of promiseRunner: the counter bounds the number of running
tasks (completions with an empty queue leave the counter behind) and never
exceeds the bound. -/
def runnerInv (maxConcurrent : Nat) (s : SchedState) : Prop :=
  s.active.length ≤ s.runningTasks ∧ s.runningTasks ≤ maxConcurrent

lemma promiseChainStep_inv (m : Nat) (s : SchedState) (e : SchedEvent)
    (h : chainInv m s) : chainInv m (promiseChainStep m s e) := by
  obtain ⟨hlen, hmax⟩ := h
  cases e with
  | schedule id =>
    by_cases hr : s.runningTasks < m
    · simp [promiseChainStep, hr, chainInv, hlen]
      omega
    · simp [promiseChainStep, hr, chainInv, hlen, hmax]
  | complete id =>
    by_cases hid : id ∈ s.active
    · have he : (s.active.erase id).length = s.active.length - 1 :=
        List.length_erase_of_mem hid
      have hpos : 0 < s.active.length := List.length_pos_of_mem hid
      cases hq : s.queue with
      | nil =>
        simp [promiseChainStep, hid, hq, chainInv, he]
        omega
      | cons q rest =>
        by_cases hrt : s.runningTasks ≤ m
        · simp [promiseChainStep, hid, hq, hrt, chainInv, he]
          omega
        · simp [promiseChainStep, hid, hq, hrt, chainInv, he]
          omega
    · simp [promiseChainStep, hid, chainInv, hlen, hmax]

lemma promiseRunnerStep_inv (m : Nat) (s : SchedState) (e : SchedEvent)
    (h : runnerInv m s) : runnerInv m (promiseRunnerStep m s e) := by
  obtain ⟨hlen, hmax⟩ := h
  cases e with
  | schedule id =>
    by_cases hr : m ≤ s.runningTasks
    · simp [promiseRunnerStep, hr, runnerInv, hlen, hmax]
    · simp [promiseRunnerStep, hr, runnerInv]
      omega
  | complete id =>
    by_cases hid : id ∈ s.active
    · have he : (s.active.erase id).length = s.active.length - 1 :=
        List.length_erase_of_mem hid
      have hpos : 0 < s.active.length := List.length_pos_of_mem hid
      by_cases hrt : s.runningTasks ≤ m
      · cases hq : s.queue with
        | nil =>
          simp [promiseRunnerStep, hid, hq, hrt, runnerInv, he]
          omega
        | cons q rest =>
          simp [promiseRunnerStep, hid, hq, hrt, runnerInv, he]
          omega
      · simp [promiseRunnerStep, hid, hrt, runnerInv, he]
        omega
    · simp [promiseRunnerStep, hid, runnerInv, hlen, hmax]

lemma runPromiseChain_inv (m : Nat) (evs : List SchedEvent) :
    chainInv m (runPromiseChain m evs) := by
  apply foldl_pres (chainInv m) (promiseChainStep m)
    (fun s e hs => promiseChainStep_inv m s e hs) evs
  exact ⟨rfl, Nat.zero_le m⟩

lemma runPromiseRunner_inv (m : Nat) (evs : List SchedEvent) :
    runnerInv m (runPromiseRunner m evs) := by
  apply foldl_pres (runnerInv m) (promiseRunnerStep m)
    (fun s e hs => promiseRunnerStep_inv m s e hs) evs
  exact ⟨Nat.le_refl 0, Nat.zero_le m⟩

/-- C7 (amended): on every event trace, both scheduler implementations keep
at most `maxConcurrent` tasks concurrently running. A task submitted while
the internal `runningTasks` counter is below `maxConcurrent` starts
immediately, and otherwise is enqueued. For `promiseChain` the counter
always equals the number of tasks in flight, so its admission matches the
claim; for `promiseRunner` the counter can exceed the true in-flight count
(see the C8 bug), so a task submitted while fewer than `maxConcurrent`
tasks are actually in flight may nonetheless be enqueued. -/
theorem scheduler_cap_and_admission (m : Nat) (evs : List SchedEvent) (id : Nat) :
    (runPromiseChain m evs).active.length ≤ m ∧
    (runPromiseRunner m evs).active.length ≤ m ∧
    (runPromiseChain m evs).active.length = (runPromiseChain m evs).runningTasks ∧
    ((runPromiseChain m evs).active.length < m →
      (promiseChainStep m (runPromiseChain m evs) (SchedEvent.schedule id)).started =
          (runPromiseChain m evs).started ++ [id] ∧
        (promiseChainStep m (runPromiseChain m evs) (SchedEvent.schedule id)).active =
          (runPromiseChain m evs).active ++ [id]) ∧
    (m ≤ (runPromiseChain m evs).runningTasks →
      (promiseChainStep m (runPromiseChain m evs) (SchedEvent.schedule id)).queue =
          (runPromiseChain m evs).queue ++ [id] ∧
        (promiseChainStep m (runPromiseChain m evs) (SchedEvent.schedule id)).started =
          (runPromiseChain m evs).started) ∧
    ((runPromiseRunner m evs).runningTasks < m →
      (promiseRunnerStep m (runPromiseRunner m evs) (SchedEvent.schedule id)).started =
        (runPromiseRunner m evs).started ++ [id]) := by
  obtain ⟨hceq, hcmax⟩ := runPromiseChain_inv m evs
  obtain ⟨hrle, hrmax⟩ := runPromiseRunner_inv m evs
  refine ⟨hceq ▸ hcmax, Nat.le_trans hrle hrmax, hceq, ?_, ?_, ?_⟩
  · intro hlt
    have hr : (runPromiseChain m evs).runningTasks < m := hceq ▸ hlt
    simp [promiseChainStep, hr]
  · intro hge
    have hr : ¬ (runPromiseChain m evs).runningTasks < m := Nat.not_lt.mpr hge
    simp [promiseChainStep, hr]
  · intro hlt
    have hr : ¬ m ≤ (runPromiseRunner m evs).runningTasks := Nat.not_le.mpr hlt
    simp [promiseRunnerStep, hr]

/-- Witness for `scheduler_cap_and_admission`: with bound 2 and one running
task, a newly scheduled task starts immediately on both implementations. -/
theorem scheduler_cap_and_admission_witness :
    (promiseChainStep 2 (runPromiseChain 2 [SchedEvent.schedule 0])
        (SchedEvent.schedule 1)).started =
      (runPromiseChain 2 [SchedEvent.schedule 0]).started ++ [1] ∧
    (promiseRunnerStep 2 (runPromiseRunner 2 [SchedEvent.schedule 0])
        (SchedEvent.schedule 1)).started =
      (runPromiseRunner 2 [SchedEvent.schedule 0]).started ++ [1] :=
  ⟨((scheduler_cap_and_admission 2 [SchedEvent.schedule 0] 1).2.2.2.1 (by decide)).1,
    (scheduler_cap_and_admission 2 [SchedEvent.schedule 0] 1).2.2.2.2.2 (by decide)⟩

/-- C7 counterexample: on `promiseRunner(1)`, after task 0 is scheduled and
completes with an empty queue, no task is in flight (`active = []`), yet
scheduling task 1 enqueues it instead of starting it immediately (the stale
counter still reads 1), refuting the claim that a task submitted while
fewer than `maxConcurrent` tasks are in flight starts immediately. -/
theorem promiseRunner_queues_when_idle :
    (runPromiseRunner 1 [SchedEvent.schedule 0, SchedEvent.complete 0]).active = [] ∧
    runPromiseRunner 1
        [SchedEvent.schedule 0, SchedEvent.complete 0, SchedEvent.schedule 1] =
      ⟨1, [1], [], [0]⟩ := by decide

/-- C8: when a `promiseRunner` task completes with an empty queue, the
running count is not decremented — the decrement branch requires
`runningTasks > maxConcurrent`, which never holds — so after task 0
completes the counter is stuck at 1 and a later task 1 is never started;
the fixed sibling `promiseChain` decrements to 0 and starts task 1 as the
claim describes. -/
theorem promiseRunner_missing_decrement :
    runPromiseRunner 1 [SchedEvent.schedule 0, SchedEvent.complete 0] =
      ⟨1, [], [], [0]⟩ ∧
    runPromiseChain 1 [SchedEvent.schedule 0, SchedEvent.complete 0] =
      ⟨0, [], [], [0]⟩ ∧
    (runPromiseChain 1
        [SchedEvent.schedule 0, SchedEvent.complete 0, SchedEvent.schedule 1]).started =
      [0, 1] ∧
    (runPromiseRunner 1
        [SchedEvent.schedule 0, SchedEvent.complete 0, SchedEvent.schedule 1]).started =
      [0] := by decide

/-- Decoded user object of the Twitter JSON payload (api.go response struct
fields id, name, screen_name). -/
structure RawUser where
  id : UserId
  name : String
  screen_name : String
deriving DecidableEq

/-- Decoded tweet object of the Twitter JSON payload (api.go response
struct fields id, in_reply_to_status_id, in_reply_to_user_id, user). -/
structure RawTweet where
  id : TweetId
  in_reply_to_status_id : Option TweetId
  in_reply_to_user_id : Option UserId
  user : RawUser
deriving DecidableEq

/-- An HTTP response as seen by the response-handling code of `GetTweets`
and `GetUserTweets`: the status code, and the decoded JSON body (`none`
when the body does not decode as a tweet array). -/
structure ApiResponse where
  statusCode : Nat
  body : Option (List RawTweet)
deriving DecidableEq

/-- Failure modes of the response handling. The Go code returns one generic
error value for every rejected status (`Twitter API returned an error`,
api.go lines 87 to 91 and 185 to 189; a special auth error is only a TODO),
modelled by the single constructor `twitterApiError`; `decodeError` models
a JSON decoder failure. -/
inductive ApiError where
  | twitterApiError
  | decodeError
deriving DecidableEq

/-- Conversion of a decoded payload tweet into a `Tweet` record (api.go
lines 113 to 123). -/
def decodeTweet (r : RawTweet) : Tweet :=
  ⟨⟨r.user.id, r.user.screen_name, r.user.name⟩,
    r.in_reply_to_status_id, r.in_reply_to_user_id⟩

/-- Success test for a response-handling outcome. -/
def isSuccess {α : Type} : Except ApiError α → Bool
  | Except.ok _ => true
  | Except.error _ => false

/-- Response handling of `GetTweets` (api.go lines 80 to 126, from the
point the response is received): reject the response when
`StatusCode > 200`, then decode the body and build the result map keyed by
tweet id. -/
def GetTweets (resp : ApiResponse) : Except ApiError Tweets :=
  if resp.statusCode > 200 then Except.error ApiError.twitterApiError
  else
    match resp.body with
    | none => Except.error ApiError.decodeError
    | some raws =>
      Except.ok (raws.foldl (fun acc r => Tweets.set acc r.id (decodeTweet r)) [])

/-- Response handling of `GetUserTweets` (api.go lines 178 to 224), textually
identical to that of `GetTweets`. -/
def GetUserTweets (resp : ApiResponse) : Except ApiError Tweets :=
  if resp.statusCode > 200 then Except.error ApiError.twitterApiError
  else
    match resp.body with
    | none => Except.error ApiError.decodeError
    | some raws =>
      Except.ok (raws.foldl (fun acc r => Tweets.set acc r.id (decodeTweet r)) [])

/-- C9 (amended): with a decodable body, both operations fail due to HTTP
status exactly when the status is greater than 200 — not exactly when it is
outside the 2xx range — and every status failure is the same generic error:
a 401 or 403 is not distinguishable from a 500 (the distinct auth error is
only a TODO in the source). -/
theorem getTweets_status_check (status : Nat) (raws : List RawTweet) :
    (isSuccess (GetTweets ⟨status, some raws⟩) = true ↔ status ≤ 200) ∧
    (isSuccess (GetUserTweets ⟨status, some raws⟩) = true ↔ status ≤ 200) ∧
    GetTweets ⟨401, some raws⟩ = GetTweets ⟨500, some raws⟩ ∧
    GetUserTweets ⟨403, some raws⟩ = GetUserTweets ⟨500, some raws⟩ := by
  refine ⟨?_, ?_, rfl, rfl⟩ <;>
    · by_cases h : 200 < status
      · simp [GetTweets, GetUserTweets, h, isSuccess]
        try omega
      · simp [GetTweets, GetUserTweets, h, isSuccess]
        try omega

/-- C9 counterexample: status 201 is in the 2xx range yet both operations
reject it, and a 401 response produces the same error value as a 500, so
neither the fails-exactly-on-non-2xx claim nor the distinguishable
AuthExpired claim holds of the code. -/
theorem getTweets_rejects_201 :
    GetTweets ⟨201, some []⟩ = Except.error ApiError.twitterApiError ∧
    201 / 100 = 2 ∧
    GetTweets ⟨401, some []⟩ = GetTweets ⟨500, some []⟩ ∧
    GetUserTweets ⟨401, some []⟩ = Except.error ApiError.twitterApiError := by
  exact ⟨rfl, rfl, rfl, rfl⟩

/-- Unhide times produced by the promise chain of thread.ts (lines 92 to
101), given the settle time of each container's load task, in document
order. The model of promise timing: a `.then` callback runs one step after
all its dependencies have settled, and the reduce chain starts from
`Promise.resolve()` at time 0; each load task always fulfils because a
`.catch` handler is attached. The accumulator carries the unhide times so
far and the settle time of the chain. -/
def threadTaskTimes (settles : List Nat) : List Nat × Nat :=
  settles.foldl
    (fun acc s => (acc.1 ++ [Nat.max acc.2 s + 1], Nat.max acc.2 s + 1)) ([], 0)

/-- Unhide time of each tweet container, in document order. -/
def revealTimes (settles : List Nat) : List Nat := (threadTaskTimes settles).1

/-- Time the end-of-thread message is updated (thread.ts lines 105 to 107):
one step after the whole chain has settled. -/
def endOfThreadTime (settles : List Nat) : Nat := (threadTaskTimes settles).2 + 1

lemma threadTaskTimes_inv (settles : List Nat) :
    List.Pairwise (· < ·) (threadTaskTimes settles).1 ∧
    ∀ t ∈ (threadTaskTimes settles).1, t ≤ (threadTaskTimes settles).2 := by
  have hstep : ∀ (acc : List Nat × Nat) (s : Nat),
      (List.Pairwise (· < ·) acc.1 ∧ ∀ t ∈ acc.1, t ≤ acc.2) →
      (List.Pairwise (· < ·)
          (acc.1 ++ [Nat.max acc.2 s + 1], Nat.max acc.2 s + 1).1 ∧
        ∀ t ∈ (acc.1 ++ [Nat.max acc.2 s + 1], Nat.max acc.2 s + 1).1,
          t ≤ (acc.1 ++ [Nat.max acc.2 s + 1], Nat.max acc.2 s + 1).2) := by
    intro acc s hacc
    obtain ⟨hp, hb⟩ := hacc
    constructor
    · rw [List.pairwise_append]
      refine ⟨hp, List.pairwise_singleton _ _, ?_⟩
      intro a ha b hb2
      simp at hb2
      subst hb2
      have := hb a ha
      have hle : acc.2 ≤ Nat.max acc.2 s := Nat.le_max_left _ _
      omega
    · intro t ht
      rcases List.mem_append.mp ht with h | h
      · have := hb t h
        have hle : acc.2 ≤ Nat.max acc.2 s := Nat.le_max_left _ _
        simp only []
        omega
      · simp at h
        omega
  exact foldl_pres
    (fun acc : List Nat × Nat => List.Pairwise (· < ·) acc.1 ∧ ∀ t ∈ acc.1, t ≤ acc.2)
    (fun acc s => (acc.1 ++ [Nat.max acc.2 s + 1], Nat.max acc.2 s + 1))
    hstep settles ([], 0) ⟨List.Pairwise.nil, by simp⟩

/-- C10: whatever the settle order and settle times of the widget load
tasks, the containers are unhidden strictly in document order (the unhide
times are strictly increasing along the document order), and the
end-of-thread message is updated strictly after every container has been
unhidden. -/
theorem threadTask_reveals_in_order (settles : List Nat) :
    List.Pairwise (· < ·) (revealTimes settles) ∧
    ∀ t ∈ revealTimes settles, t < endOfThreadTime settles := by
  obtain ⟨hp, hb⟩ := threadTaskTimes_inv settles
  refine ⟨hp, ?_⟩
  intro t ht
  have := hb t ht
  unfold endOfThreadTime
  omega
